import Mathlib

/-!
# Verification of the dicomDemo benchmark harness (src/main.py)

Shallow embedding of the core of `main.py`:

* the Metrics Recorder (`attempt_measures_insert`, lines 64-76, and the
  process-wide `measures` buffer),
* the Element Tree Converter (`process_data`, lines 187-215),
* the Load Harness (`insert_data`, lines 263-307),
* the Read Harness (`read_data`, lines 310-343).

Conventions of the embedding:

* The store (MongoDB) is abstracted by boolean success parameters: a write
  either succeeds and acknowledges the whole batch, or raises.  `insert_many`
  of the `dcm` collection is modelled by a per-iteration success flag, and
  `insert_many` of the `metrics` collection is modelled by a success flag
  indexed by the number of metric write attempts made so far.
* Wall-clock fields (`process_time`, `date`) of a measurement event are
  non-deterministic real time and are not part of any claim; events are
  modelled by their `measure` name and `items_processed` count.
* Randomness (`random.choice`, `random.randint`) is modelled by an explicit
  choice function supplied as a parameter.
* Python exceptions are modelled with `Except`; a caught-and-ignored
  exception is a `match` on the error branch.
-/

namespace DicomDemo

/-- A measurement event, as appended to the process-wide `measures` list:
`{'measure': ..., 'items_processed': ...}` (the wall-clock fields
`process_time` and `date` are abstracted away). -/
structure MEvent where
  measure : String
  items : Nat
deriving DecidableEq, Repr

/-- `attempt_measures_insert(db, sz=1000)` (main.py lines 64-76).
The buffer `buf` is the global `measures` list.  If the buffer holds more
than `sz` events, `insert_many` is attempted on the whole buffer: on success
the buffer is cleared (`measures.clear()`) and the batch is written; on
failure the exception is re-raised (`raise e`) with the buffer untouched.
Below the threshold nothing happens.

Result: `.ok (newBuffer, writtenBatch)` on normal return,
`.error oldBuffer` when the store write raised. -/
def attemptMeasuresInsert (writeOk : Bool) (sz : Nat) (buf : List MEvent) :
    Except (List MEvent) (List MEvent × List MEvent) :=
  if buf.length > sz then
    if writeOk then Except.ok ([], buf)
    else Except.error buf
  else Except.ok (buf, [])

/-- The buffer left behind by a flush whose store write (if any) succeeds. -/
def flushT (sz : Nat) (buf : List MEvent) : List MEvent :=
  match attemptMeasuresInsert true sz buf with
  | Except.ok p => p.1
  | Except.error b => b

/-- One step of the Metrics Recorder workload: either append one event to the
buffer (`measures.append`) or run a thresholded flush whose write succeeds. -/
inductive MOp where
  | app (e : MEvent)
  | flush
deriving DecidableEq, Repr

/-- Largest buffer size ever reached while running the ops from `buf`. -/
def maxBufLen (wm : Nat) (buf : List MEvent) : List MOp → Nat
  | [] => buf.length
  | MOp.app e :: rest => max buf.length (maxBufLen wm (buf ++ [e]) rest)
  | MOp.flush :: rest => max buf.length (maxBufLen wm (flushT wm buf) rest)

/-- Length of the leading run of `rec` ops (events appended before the next
flush check). -/
def headRun : List MOp → Nat
  | MOp.app _ :: rest => headRun rest + 1
  | _ => 0

/-- Largest number of events appended between two consecutive flush checks
(or before the first / after the last one). -/
def maxSeg : List MOp → Nat
  | [] => 0
  | MOp.flush :: rest => maxSeg rest
  | MOp.app _ :: rest => max (headRun rest + 1) (maxSeg rest)

theorem flushT_length_le_wm (wm : Nat) (buf : List MEvent) :
    (flushT wm buf).length ≤ wm := by
  by_cases h : buf.length > wm
  · simp [flushT, attemptMeasuresInsert, h]
  · simp [flushT, attemptMeasuresInsert, h]; omega

theorem headRun_le_maxSeg (ops : List MOp) : headRun ops ≤ maxSeg ops := by
  induction ops with
  | nil => simp [headRun, maxSeg]
  | cons op rest ih =>
    cases op with
    | app e => simp [headRun, maxSeg, Nat.le_max_left]
    | flush => simp [headRun, maxSeg]

theorem maxSeg_le_cons (op : MOp) (rest : List MOp) :
    maxSeg rest ≤ maxSeg (op :: rest) := by
  cases op with
  | app e => simp [maxSeg, Nat.le_max_right]
  | flush => simp [maxSeg]

theorem maxBufLen_bound (wm : Nat) :
    ∀ (ops : List MOp) (buf : List MEvent),
      maxBufLen wm buf ops ≤ max (buf.length + headRun ops) (wm + maxSeg ops) := by
  intro ops
  induction ops with
  | nil => intro buf; simp [maxBufLen, headRun]
  | cons op rest ih =>
    intro buf
    cases op with
    | app e =>
      have h1 := ih (buf ++ [e])
      simp only [maxBufLen, headRun, maxSeg]
      have h2 : (buf ++ [e]).length = buf.length + 1 := by simp
      apply max_le
      · apply le_max_of_le_left; omega
      · apply le_trans h1
        apply max_le
        · apply le_max_of_le_left; omega
        · apply le_max_of_le_right
          have := maxSeg_le_cons (MOp.app e) rest
          simp only [maxSeg] at *
          omega
    | flush =>
      have h1 := ih (flushT wm buf)
      simp only [maxBufLen, headRun, maxSeg]
      apply max_le
      · apply le_max_of_le_left; omega
      · apply le_trans h1
        apply max_le
        · apply le_max_of_le_right
          have h3 := flushT_length_le_wm wm buf
          have h4 := headRun_le_maxSeg rest
          omega
        · apply le_max_of_le_right; omega

/-- C3 -- If a flush's store write fails, the buffer is left intact (the
exception carries the run past `measures.clear()`), a later successful flush
writes the previously unflushed events together with everything recorded
since, and a flush removes events from the buffer only when its write
succeeds (in which case it writes exactly the removed events). -/
theorem no_silent_metric_loss (buf newEvents : List MEvent) (sz1 sz2 : Nat)
    (h1 : sz1 < buf.length) (h2 : sz2 < buf.length + newEvents.length) :
    attemptMeasuresInsert false sz1 buf = Except.error buf ∧
    attemptMeasuresInsert true sz2 (buf ++ newEvents) =
      Except.ok ([], buf ++ newEvents) ∧
    (∀ (ok : Bool) (sz : Nat) (b b2 w : List MEvent),
      attemptMeasuresInsert ok sz b = Except.ok (b2, w) →
      (b2 = b ∧ w = []) ∨ (b2 = [] ∧ w = b ∧ ok = true)) := by
  refine ⟨?_, ?_, ?_⟩
  · simp [attemptMeasuresInsert, h1]
  · have hgt : (buf ++ newEvents).length > sz2 := by simp; omega
    unfold attemptMeasuresInsert
    rw [if_pos hgt]
    rfl
  · intro ok sz b b2 w h
    unfold attemptMeasuresInsert at h
    split at h
    · cases ok with
      | true => simp at h; simp [h]
      | false => simp at h
    · simp at h; simp [h]

theorem no_silent_metric_loss_witness :
    (0 < [MEvent.mk "single_read" 2].length ∧
      0 < [MEvent.mk "single_read" 2].length + [MEvent.mk "total_read" 2].length) ∧
    (attemptMeasuresInsert false 0 [MEvent.mk "single_read" 2] =
        Except.error [MEvent.mk "single_read" 2] ∧
      attemptMeasuresInsert true 0
          ([MEvent.mk "single_read" 2] ++ [MEvent.mk "total_read" 2]) =
        Except.ok ([], [MEvent.mk "single_read" 2] ++ [MEvent.mk "total_read" 2]) ∧
      (∀ (ok : Bool) (sz : Nat) (b b2 w : List MEvent),
        attemptMeasuresInsert ok sz b = Except.ok (b2, w) →
        (b2 = b ∧ w = []) ∨ (b2 = [] ∧ w = b ∧ ok = true))) :=
  ⟨⟨by decide, by decide⟩,
    no_silent_metric_loss [MEvent.mk "single_read" 2] [MEvent.mk "total_read" 2]
      0 0 (by decide) (by decide)⟩

/-- C5 -- A thresholded flush is a no-op when the buffer does not exceed the
watermark; the shutdown flush (`sz = 0`) leaves an empty buffer; and over any
sequence of record calls interleaved with thresholded flushes whose writes
succeed, the buffer size never exceeds the watermark plus the largest batch
of events appended between consecutive flush checks. -/
theorem bounded_buffering (wm : Nat) (buf : List MEvent) (ops : List MOp)
    (h : buf.length ≤ wm) :
    attemptMeasuresInsert true wm buf = Except.ok (buf, []) ∧
    flushT 0 buf = [] ∧
    maxBufLen wm [] ops ≤ wm + maxSeg ops := by
  refine ⟨?_, ?_, ?_⟩
  · simp [attemptMeasuresInsert]; omega
  · by_cases hb : buf.length > 0
    · simp [flushT, attemptMeasuresInsert, hb]
    · have hnil : buf = [] := by
        cases buf with
        | nil => rfl
        | cons x xs => simp at hb
      subst hnil
      rfl
  · have h1 := maxBufLen_bound wm ops []
    have h2 := headRun_le_maxSeg ops
    simp at h1
    omega

theorem bounded_buffering_witness :
    ([MEvent.mk "dcm_process" 1].length ≤ 2) ∧
    (attemptMeasuresInsert true 2 [MEvent.mk "dcm_process" 1] =
        Except.ok ([MEvent.mk "dcm_process" 1], []) ∧
      flushT 0 [MEvent.mk "dcm_process" 1] = [] ∧
      maxBufLen 2 []
          [MOp.app (MEvent.mk "a" 0), MOp.app (MEvent.mk "b" 0),
            MOp.app (MEvent.mk "c" 0), MOp.flush, MOp.app (MEvent.mk "d" 0)] ≤
        2 + maxSeg
          [MOp.app (MEvent.mk "a" 0), MOp.app (MEvent.mk "b" 0),
            MOp.app (MEvent.mk "c" 0), MOp.flush, MOp.app (MEvent.mk "d" 0)]) :=
  ⟨by decide,
    bounded_buffering 2 [MEvent.mk "dcm_process" 1]
      [MOp.app (MEvent.mk "a" 0), MOp.app (MEvent.mk "b" 0),
        MOp.app (MEvent.mk "c" 0), MOp.flush, MOp.app (MEvent.mk "d" 0)]
      (by decide)⟩

/-! ## Element Tree Converter (`process_data`, main.py lines 187-215) -/

/-- A scalar value carried by a data element (payloads are copied verbatim by
the converter, so a small closed universe of scalars suffices). -/
inductive DVal where
  | str (s : String)
  | num (n : Int)
deriving DecidableEq, Repr

mutual
/-- A pydicom data element: a 4-byte tag, a value-representation code
(`element.VR`) and a value. -/
inductive DataElem : Type where
  | mk (tag : Nat) (vr : String) (value : ElemValue)
/-- The value of a data element: nested item datasets (for `SQ` sequences),
a `MultiValue` list (`isMultiValue` true), a `PersonName3` with its
`original_string`, or a plain scalar. -/
inductive ElemValue : Type where
  | items (its : List (List DataElem))
  | multi (vs : List DVal)
  | pname (s : String)
  | single (v : DVal)
end

mutual
/-- An entry of a node's `Value` list: either a verbatim scalar or a nested
Document produced by the recursive call. -/
inductive JVal : Type where
  | prim (v : DVal)
  | doc (d : List (String × Node))
/-- One output node `{'vr': ..., 'Value': [...]}`. -/
inductive Node : Type where
  | mk (vr : String) (value : List JVal)
end

def Node.vr : Node → String
  | Node.mk vr _ => vr

def Node.value : Node → List JVal
  | Node.mk _ v => v

/-- Lowercase hex digit, as produced by `bytes.hex()`. -/
def hexChar (n : Nat) : Char :=
  if n < 10 then Char.ofNat (48 + n) else Char.ofNat (87 + n)

/-- `element.tag.to_bytes(4, 'big').hex()`: the 8-character lowercase hex
form of a 4-byte tag. -/
def tagHex (t : Nat) : String :=
  String.mk ((List.range 8).map (fun i => hexChar (t / 16 ^ (7 - i) % 16)))

/-- Python dict assignment `data[key] = node`: replace in place if the key is
present, otherwise append (insertion order preserved). -/
def dictInsert (d : List (String × Node)) (k : String) (n : Node) :
    List (String × Node) :=
  if d.any (fun p => p.1 == k) then
    d.map (fun p => if p.1 == k then (k, n) else p)
  else d ++ [(k, n)]

mutual
/-- The loop of `process_data` (lines 199-214): fold the elements in order
into the dict `acc`, skipping the bulk-pixel key `'7fe00010'`. -/
def processDataAux (acc : List (String × Node)) :
    List DataElem → List (String × Node)
  | [] => acc
  | DataElem.mk tag vr v :: rest =>
    let key := tagHex tag
    if key ≠ "7fe00010" then
      processDataAux (dictInsert acc key (convertElem vr v)) rest
    else
      processDataAux acc rest
/-- The per-element body of `process_data` (lines 203-214): an `SQ` element
recursively converts each item; otherwise a `MultiValue` is copied verbatim,
a `PersonName3` contributes its `original_string`, and any other scalar is
wrapped in a one-element list.  The fall-through arms (`SQ` without items /
items without `SQ`) are unreachable for well-formed elements (`wfElem`). -/
def convertElem (vr : String) (v : ElemValue) : Node :=
  if vr = "SQ" then
    match v with
    | ElemValue.items its => Node.mk vr (convertItems its)
    | _ => Node.mk vr []
  else
    match v with
    | ElemValue.multi vs => Node.mk vr (vs.map JVal.prim)
    | ElemValue.pname s => Node.mk vr [JVal.prim (DVal.str s)]
    | ElemValue.single x => Node.mk vr [JVal.prim x]
    | ElemValue.items _ => Node.mk vr []
/-- `[data[key]['Value'].append(process_data(item)) for item in element]`
(line 206). -/
def convertItems : List (List DataElem) → List JVal
  | [] => []
  | item :: rest => JVal.doc (processDataAux [] item) :: convertItems rest
end

/-- `process_data(dataset)` (lines 187-215). -/
def processData (ds : List DataElem) : List (String × Node) :=
  processDataAux [] ds

mutual
/-- Well-formedness of a tagged element: the value shape matches the `SQ`
type tag, elements carry one or more values (glossary of the spec), and
nested items are themselves well-formed. -/
def wfElem : DataElem → Bool
  | DataElem.mk _ vr v => wfValue vr v
def wfValue : String → ElemValue → Bool
  | vr, ElemValue.items its => vr == "SQ" && wfItems its
  | vr, ElemValue.multi vs => vr != "SQ" && !vs.isEmpty
  | vr, ElemValue.pname _ => vr != "SQ"
  | vr, ElemValue.single _ => vr != "SQ"
def wfItems : List (List DataElem) → Bool
  | [] => true
  | item :: rest => wfDataset item && wfItems rest
def wfDataset : List DataElem → Bool
  | [] => true
  | e :: rest => wfElem e && wfDataset rest
end

/-- The hex key an element would be stored under. -/
def elemKey : DataElem → String
  | DataElem.mk t _ _ => tagHex t

theorem dictInsert_keys_mem (d : List (String × Node)) (k : String) (n : Node)
    (k2 : String) :
    k2 ∈ (dictInsert d k n).map Prod.fst ↔ k2 ∈ d.map Prod.fst ∨ k2 = k := by
  unfold dictInsert
  by_cases h : d.any (fun p => p.1 == k)
  · rw [if_pos h]
    simp only [List.any_eq_true, beq_iff_eq] at h
    obtain ⟨p0, hp0, hp0k⟩ := h
    simp only [List.map_map, List.mem_map, Function.comp]
    constructor
    · rintro ⟨p, hp, hpe⟩
      by_cases hc : p.1 = k
      · simp [hc] at hpe; right; exact hpe.symm
      · simp [hc] at hpe; left; exact ⟨p, hp, hpe⟩
    · rintro (⟨p, hp, hpe⟩ | he)
      · by_cases hc : p.1 = k
        · exact ⟨p0, hp0, by simp [hp0k, ← hpe, hc]⟩
        · refine ⟨p, hp, ?_⟩
          have hck : ¬ k2 = k := fun hh => hc (hpe.trans hh)
          simp [hck, hpe]
      · exact ⟨p0, hp0, by simp [hp0k, he]⟩
  · rw [if_neg h]
    simp

theorem processDataAux_keys (ds : List DataElem) : ∀ (acc : List (String × Node))
    (k : String),
    k ∈ (processDataAux acc ds).map Prod.fst ↔
      k ∈ acc.map Prod.fst ∨ (k ∈ ds.map elemKey ∧ k ≠ "7fe00010") := by
  induction ds with
  | nil => intro acc k; simp [processDataAux]
  | cons e rest ih =>
    intro acc k
    obtain ⟨t, vr, v⟩ := e
    by_cases hk : tagHex t ≠ "7fe00010"
    · rw [show processDataAux acc (DataElem.mk t vr v :: rest) =
            processDataAux (dictInsert acc (tagHex t) (convertElem vr v)) rest by
          simp [processDataAux, hk]]
      rw [ih, dictInsert_keys_mem]
      simp only [List.map_cons, List.mem_cons, elemKey]
      constructor
      · rintro ((ha | he) | ⟨hr, hne⟩)
        · exact Or.inl ha
        · exact Or.inr ⟨Or.inl he, he ▸ hk⟩
        · exact Or.inr ⟨Or.inr hr, hne⟩
      · rintro (ha | ⟨(he | hr), hne⟩)
        · exact Or.inl (Or.inl ha)
        · exact Or.inl (Or.inr he)
        · exact Or.inr ⟨hr, hne⟩
    · push_neg at hk
      rw [show processDataAux acc (DataElem.mk t vr v :: rest) =
            processDataAux acc rest by simp [processDataAux, hk]]
      rw [ih]
      simp only [List.map_cons, List.mem_cons, elemKey]
      constructor
      · rintro (ha | ⟨hr, hne⟩)
        · exact Or.inl ha
        · exact Or.inr ⟨Or.inr hr, hne⟩
      · rintro (ha | ⟨(he | hr), hne⟩)
        · exact Or.inl ha
        · exact absurd (he.trans hk) hne
        · exact Or.inr ⟨hr, hne⟩

/-- C2 -- `process_data` is a total function (the definition of `processData`
terminates on every input), its key set equals the set of hex-encoded tags of
the input elements minus the reserved bulk-pixel key `'7fe00010'`, and in
particular the bulk-pixel key never appears among the output's keys. -/
theorem converter_totality (ds : List DataElem) (k : String) :
    (k ∈ (processData ds).map Prod.fst ↔
      (k ∈ ds.map elemKey ∧ k ≠ "7fe00010")) ∧
    "7fe00010" ∉ (processData ds).map Prod.fst := by
  have h := processDataAux_keys ds []
  constructor
  · rw [processData, h]; simp
  · rw [processData, h]; simp

/-- C6 -- for a well-formed non-sequence element, the emitted node's `Value`
is a list of length at least one: a `MultiValue` is copied verbatim in order,
a personal name becomes the one-element list of its original string, and any
other scalar (whatever its type tag) is wrapped in a one-element list. -/
theorem shape_normalization (tag : Nat) (vr : String) (v : ElemValue)
    (hwf : wfElem (DataElem.mk tag vr v) = true) (hns : vr ≠ "SQ") :
    1 ≤ (convertElem vr v).value.length ∧
    (convertElem vr v).value =
      (match v with
       | ElemValue.multi vs => vs.map JVal.prim
       | ElemValue.pname s => [JVal.prim (DVal.str s)]
       | ElemValue.single x => [JVal.prim x]
       | ElemValue.items _ => []) := by
  cases v with
  | items its =>
    exfalso
    simp [wfElem, wfValue] at hwf
    exact hns hwf.1
  | multi vs =>
    simp [wfElem, wfValue, hns] at hwf
    have hne : vs ≠ [] := by
      intro hnil; rw [hnil] at hwf; simp at hwf
    constructor
    · simp [convertElem, hns, Node.value]
      cases vs with
      | nil => exact absurd rfl hne
      | cons a l => simp
    · simp [convertElem, hns, Node.value]
  | pname s =>
    constructor
    · simp [convertElem, hns, Node.value]
    · simp [convertElem, hns, Node.value]
  | single x =>
    constructor
    · simp [convertElem, hns, Node.value]
    · simp [convertElem, hns, Node.value]

theorem shape_normalization_witness :
    (wfElem (DataElem.mk 1048592 "PN" (ElemValue.pname "Doe^John")) = true ∧
      "PN" ≠ "SQ") ∧
    (1 ≤ (convertElem "PN" (ElemValue.pname "Doe^John")).value.length ∧
      (convertElem "PN" (ElemValue.pname "Doe^John")).value =
        [JVal.prim (DVal.str "Doe^John")]) :=
  ⟨⟨by decide, by decide⟩,
    shape_normalization 1048592 "PN" (ElemValue.pname "Doe^John")
      (by decide) (by decide)⟩

theorem convertItems_eq_map (its : List (List DataElem)) :
    convertItems its = its.map (fun item => JVal.doc (processData item)) := by
  induction its with
  | nil => rfl
  | cons item rest ih => simp [convertItems, ih, processData]

/-- C7 -- for a sequence element with N nested items the output node's
`Value` has exactly N entries, the i-th entry being the recursively converted
Document of the i-th item (and the empty list for an empty sequence); the
recursive Documents are fully computed parts of the returned node. -/
theorem recursive_fidelity (tag : Nat) (its : List (List DataElem)) (i : Nat)
    (hpix : tagHex tag ≠ "7fe00010") :
    processData [DataElem.mk tag "SQ" (ElemValue.items its)] =
      [(tagHex tag, convertElem "SQ" (ElemValue.items its))] ∧
    (convertElem "SQ" (ElemValue.items its)).value.length = its.length ∧
    (convertElem "SQ" (ElemValue.items its)).value[i]? =
      (its[i]?).map (fun item => JVal.doc (processData item)) := by
  refine ⟨?_, ?_, ?_⟩
  · simp [processData, processDataAux, dictInsert, hpix]
  · simp [convertElem, Node.value, convertItems_eq_map]
  · simp [convertElem, Node.value, convertItems_eq_map]

theorem recursive_fidelity_witness :
    (tagHex 524321 ≠ "7fe00010") ∧
    (processData [DataElem.mk 524321 "SQ" (ElemValue.items [[]])] =
        [(tagHex 524321, convertElem "SQ" (ElemValue.items [[]]))] ∧
      (convertElem "SQ" (ElemValue.items [[]])).value.length = [([] : List DataElem)].length ∧
      (convertElem "SQ" (ElemValue.items [[]])).value[0]? =
        (([([] : List DataElem)])[0]?).map (fun item => JVal.doc (processData item))) :=
  ⟨by decide, recursive_fidelity 524321 [[]] 0 (by decide)⟩

/-! ## Read Harness (`read_data`, main.py lines 310-343) -/

/-- Exceptions that can escape `read_data`: `random.choice` on an empty
sequence raises `IndexError`, and a failed metrics write re-raised by
`attempt_measures_insert` propagates (there is no try/except in
`read_data`). -/
inductive RunError where
  | indexError
  | flushError
deriving DecidableEq, Repr

/-- State threaded through `read_data`: the global `measures` buffer, the
number of metric write attempts so far (index into the write-outcome
oracle), the running `total_count`, and a ghost observer used only by the
specification: `log`, the append-only trace of every event the run records
(never cleared, unlike `buf`). -/
structure RState where
  buf : List MEvent
  fidx : Nat
  total : Nat
  log : List MEvent
deriving DecidableEq, Repr

/-- `random.choice(l)`: an arbitrary element of `l` (selected here by the
oracle value `k`), raising `IndexError` when `l` is empty. -/
def randomChoice (k : Nat) (l : List Nat) : Except RunError Nat :=
  match l[k % l.length]? with
  | some x => Except.ok x
  | none => Except.error RunError.indexError

/-- The harnesses' calls to `attempt_measures_insert`, tracking how many
store writes have been attempted so far so that the outcome oracle `wOk` can
be consulted per attempt.  Returns the new `(buffer, attempt-count)` pair, or
the unchanged buffer under `.error` when the write raised. -/
def flushPair (wOk : Nat → Bool) (sz : Nat) (buf : List MEvent) (fidx : Nat) :
    Except (List MEvent × Nat) (List MEvent × Nat) :=
  match attemptMeasuresInsert (wOk fidx) sz buf with
  | Except.ok (b, w) => Except.ok (b, if w.isEmpty then fidx else fidx + 1)
  | Except.error b => Except.error (b, fidx + 1)

/-- The repetition loop of `read_data` (lines 319-333): pick a random study,
count the documents matching it (`docs study`), record a `single_read` event,
add to `total_count`, and run a thresholded flush (default watermark 1000).
`k` is the number of repetitions left, `i` the current value of the loop
counter (the source iterates `i` over `1..READ_RUNS`). -/
def readLoop (studies : List Nat) (docs pick : Nat → Nat) (wOk : Nat → Bool) :
    Nat → Nat → RState → Except RunError RState
  | 0, _, st => Except.ok st
  | k + 1, i, st =>
    match randomChoice (pick i) studies with
    | Except.error _ => Except.error RunError.indexError
    | Except.ok study =>
      let count := docs study
      let buf2 := st.buf ++ [MEvent.mk "single_read" count]
      match flushPair wOk 1000 buf2 st.fidx with
      | Except.error _ => Except.error RunError.flushError
      | Except.ok (b, f) =>
        readLoop studies docs pick wOk k (i + 1)
          (RState.mk b f (st.total + count)
            (st.log ++ [MEvent.mk "single_read" count]))

/-- `read_data(db)` (lines 310-343): run the repetition loop, then record one
`total_read` event with the accumulated `total_count` and run one more
thresholded (`sz = 1000`) flush.  `studies` is
`db['dcm'].distinct('meta.study')`, `docs s` the number of documents whose
`meta.study` equals `s`, `pick` the randomness oracle and `buf0` the content
of the `measures` buffer on entry.  Returns the final state: buffer,
write-attempt count, `total_count`, and the ghost trace of the events this
run recorded (which starts empty, whatever `buf0` holds). -/
def readData (studies : List Nat) (docs pick : Nat → Nat) (wOk : Nat → Bool)
    (readRuns : Nat) (buf0 : List MEvent) : Except RunError RState :=
  match readLoop studies docs pick wOk readRuns 1 (RState.mk buf0 0 0 []) with
  | Except.error e => Except.error e
  | Except.ok st =>
    let buf2 := st.buf ++ [MEvent.mk "total_read" st.total]
    match flushPair wOk 1000 buf2 st.fidx with
    | Except.error _ => Except.error RunError.flushError
    | Except.ok (b, f) =>
      Except.ok (RState.mk b f st.total
        (st.log ++ [MEvent.mk "total_read" st.total]))

/-- `random.choice` resolved against a nonempty list. -/
def choiceD (k : Nat) (l : List Nat) : Nat := l.getD (k % l.length) 0

theorem randomChoice_ok (k : Nat) (l : List Nat) (h : l ≠ []) :
    randomChoice k l = Except.ok (choiceD k l) := by
  have hlt : k % l.length < l.length := Nat.mod_lt _ (List.length_pos.mpr h)
  unfold randomChoice choiceD
  rw [List.getElem?_eq_getElem hlt]
  rw [List.getD_eq_getElem l 0 hlt]

theorem flushPair_noop (wOk : Nat → Bool) (sz : Nat) (buf : List MEvent)
    (fidx : Nat) (h : buf.length ≤ sz) :
    flushPair wOk sz buf fidx = Except.ok (buf, fidx) := by
  have hng : ¬ buf.length > sz := by omega
  simp [flushPair, attemptMeasuresInsert, hng]

theorem flushPair_fail (wOk : Nat → Bool) (sz : Nat) (buf : List MEvent)
    (fidx : Nat) (h : sz < buf.length) (hw : wOk fidx = false) :
    flushPair wOk sz buf fidx = Except.error (buf, fidx + 1) := by
  simp [flushPair, attemptMeasuresInsert, h, hw]

/-- C1 -- refuting theorem: against an empty store (`distinct` returns `[]`)
the read harness does not run to completion recording zero counts; its very
first repetition raises `IndexError` from `random.choice([])` before any
event is recorded. -/
theorem read_empty_store_index_error :
    readData [] (fun _ => 0) (fun _ => 0) (fun _ => true) 5 [] =
      Except.error RunError.indexError := rfl

/-- Normal returns of a flush: either the buffer was at or below the
threshold and is returned untouched, or it exceeded the threshold and the
(successful) write cleared it. -/
theorem flushPair_ok_cases (wOk : Nat → Bool) (sz : Nat) (buf : List MEvent)
    (fidx : Nat) (b : List MEvent) (f : Nat)
    (h : flushPair wOk sz buf fidx = Except.ok (b, f)) :
    (b = buf ∧ buf.length ≤ sz) ∨ (b = [] ∧ sz < buf.length) := by
  unfold flushPair attemptMeasuresInsert at h
  by_cases hlen : buf.length > sz
  · rw [if_pos hlen] at h
    cases hw : wOk fidx with
    | false => rw [hw] at h; simp at h
    | true =>
      rw [hw] at h
      simp at h
      right
      exact ⟨h.1, hlen⟩
  · rw [if_neg hlen] at h
    simp at h
    left
    exact ⟨h.1.symm, by omega⟩

/-- Every successful run of the repetition loop records exactly one
`single_read` event per repetition into the ghost trace (whatever flushing
does to the buffer) and sums their counts into `total_count`. -/
theorem readLoop_ok_trace (studies : List Nat) (docs pick : Nat → Nat)
    (wOk : Nat → Bool) :
    ∀ (k i : Nat) (st st2 : RState),
      readLoop studies docs pick wOk k i st = Except.ok st2 →
      ∃ counts : List Nat, counts.length = k ∧
        st2.total = st.total + counts.sum ∧
        st2.log = st.log ++ counts.map (fun c => MEvent.mk "single_read" c) := by
  intro k
  induction k with
  | zero =>
    intro i st st2 h
    simp only [readLoop, Except.ok.injEq] at h
    subst h
    exact ⟨[], rfl, by simp, by simp⟩
  | succ n ih =>
    intro i st st2 h
    rw [readLoop] at h
    cases hrc : randomChoice (pick i) studies with
    | error e =>
      rw [hrc] at h
      dsimp only at h
      simp at h
    | ok study =>
      rw [hrc] at h
      dsimp only at h
      cases hfp : flushPair wOk 1000
          (st.buf ++ [MEvent.mk "single_read" (docs study)]) st.fidx with
      | error p =>
        rw [hfp] at h
        simp at h
      | ok p =>
        obtain ⟨b, f⟩ := p
        rw [hfp] at h
        obtain ⟨counts, hlen, htot, hlog⟩ := ih (i + 1) _ st2 h
        refine ⟨docs study :: counts, by simp [hlen], ?_, ?_⟩
        · rw [htot]
          dsimp only
          simp only [List.sum_cons]
          omega
        · rw [hlog]
          dsimp only
          simp [List.append_assoc]

/-- C8 (amended) -- on every successful run, whatever the readCount
(`READ_RUNS = 10000` included), the starting buffer content, and the flushes
that fire mid-run: the read harness records exactly `readCount` `single_read`
events and then exactly one `total_read` event whose `items_processed`
equals the sum of all `single_read` counts of the run, and the flush it
performs after `total_read` is the thresholded default (watermark 1000), not
an unconditional one: the returned buffer is empty only when it exceeded the
watermark, and otherwise still ends with the buffered `total_read` event. -/
theorem total_read_sums (studies : List Nat) (docs pick : Nat → Nat)
    (wOk : Nat → Bool) (n : Nat) (buf0 : List MEvent) (st : RState)
    (h : readData studies docs pick wOk n buf0 = Except.ok st) :
    ∃ counts : List Nat, counts.length = n ∧
      st.log = counts.map (fun c => MEvent.mk "single_read" c) ++
        [MEvent.mk "total_read" counts.sum] ∧
      st.total = counts.sum ∧
      (st.buf = [] ∨
        (st.buf.length ≤ 1000 ∧
          st.buf.getLast? = some (MEvent.mk "total_read" counts.sum))) := by
  unfold readData at h
  cases hrl : readLoop studies docs pick wOk n 1 (RState.mk buf0 0 0 []) with
  | error e =>
    rw [hrl] at h
    simp at h
  | ok stL =>
    rw [hrl] at h
    dsimp only at h
    obtain ⟨counts, hlen, htot, hlog⟩ :=
      readLoop_ok_trace studies docs pick wOk n 1 (RState.mk buf0 0 0 []) stL hrl
    cases hfp : flushPair wOk 1000
        (stL.buf ++ [MEvent.mk "total_read" stL.total]) stL.fidx with
    | error p =>
      rw [hfp] at h
      simp at h
    | ok p =>
      obtain ⟨b, f⟩ := p
      rw [hfp] at h
      simp only [Except.ok.injEq] at h
      subst h
      dsimp only at htot hlog ⊢
      have htotal : stL.total = counts.sum := by simpa using htot
      have hcases := flushPair_ok_cases wOk 1000 _ stL.fidx b f hfp
      refine ⟨counts, hlen, ?_, htotal, ?_⟩
      · rw [hlog, htotal]
        simp
      · rcases hcases with ⟨hb, hle⟩ | ⟨hb, hgt⟩
        · right
          subst hb
          refine ⟨hle, ?_⟩
          rw [htotal]
          exact List.getLast?_concat _
        · left
          exact hb

set_option maxRecDepth 10000 in
theorem total_read_sums_witness :
    (readData [1] (fun _ => 0) (fun _ => 0) (fun _ => true) 2
        (List.replicate 1000 (MEvent.mk "dcm_process" 1)) =
      Except.ok (RState.mk
        [MEvent.mk "single_read" 0, MEvent.mk "total_read" 0] 1 0
        [MEvent.mk "single_read" 0, MEvent.mk "single_read" 0,
          MEvent.mk "total_read" 0])) ∧
    (∃ counts : List Nat, counts.length = 2 ∧
      (RState.mk [MEvent.mk "single_read" 0, MEvent.mk "total_read" 0] 1 0
        [MEvent.mk "single_read" 0, MEvent.mk "single_read" 0,
          MEvent.mk "total_read" 0]).log =
        counts.map (fun c => MEvent.mk "single_read" c) ++
          [MEvent.mk "total_read" counts.sum] ∧
      (RState.mk [MEvent.mk "single_read" 0, MEvent.mk "total_read" 0] 1 0
        [MEvent.mk "single_read" 0, MEvent.mk "single_read" 0,
          MEvent.mk "total_read" 0]).total = counts.sum ∧
      ((RState.mk [MEvent.mk "single_read" 0, MEvent.mk "total_read" 0] 1 0
          [MEvent.mk "single_read" 0, MEvent.mk "single_read" 0,
            MEvent.mk "total_read" 0]).buf = [] ∨
        ((RState.mk [MEvent.mk "single_read" 0, MEvent.mk "total_read" 0] 1 0
            [MEvent.mk "single_read" 0, MEvent.mk "single_read" 0,
              MEvent.mk "total_read" 0]).buf.length ≤ 1000 ∧
          (RState.mk [MEvent.mk "single_read" 0, MEvent.mk "total_read" 0] 1 0
            [MEvent.mk "single_read" 0, MEvent.mk "single_read" 0,
              MEvent.mk "total_read" 0]).buf.getLast? =
            some (MEvent.mk "total_read" counts.sum)))) :=
  ⟨rfl,
    total_read_sums [1] (fun _ => 0) (fun _ => 0) (fun _ => true) 2
      (List.replicate 1000 (MEvent.mk "dcm_process" 1))
      (RState.mk [MEvent.mk "single_read" 0, MEvent.mk "total_read" 0] 1 0
        [MEvent.mk "single_read" 0, MEvent.mk "single_read" 0,
          MEvent.mk "total_read" 0])
      rfl⟩

/-- C8 -- counterexample to the claim as stated: a run in which every store
write succeeds ends with a nonempty buffer (two `single_read` events and the
`total_read` event are all still buffered), because the final flush in
`read_data` is the thresholded default (`sz = 1000`); a genuinely
unconditional flush of that same buffer would have drained it. -/
theorem total_read_flush_thresholded_cex :
    readData [1] (fun _ => 0) (fun _ => 0) (fun _ => true) 2 [] =
      Except.ok (RState.mk
        [MEvent.mk "single_read" 0, MEvent.mk "single_read" 0,
          MEvent.mk "total_read" 0] 0 0
        [MEvent.mk "single_read" 0, MEvent.mk "single_read" 0,
          MEvent.mk "total_read" 0]) ∧
    ([MEvent.mk "single_read" 0, MEvent.mk "single_read" 0,
        MEvent.mk "total_read" 0] : List MEvent) ≠ [] ∧
    flushT 0 [MEvent.mk "single_read" 0, MEvent.mk "single_read" 0,
        MEvent.mk "total_read" 0] = [] :=
  ⟨rfl, by decide, rfl⟩

/-! ## Load Harness (`insert_data`, main.py lines 263-307) -/

/-- State threaded through `insert_data`: the global `measures` buffer, the
metric write-attempt counter, plus two ghost observers used only by the
specification: `log`, the append-only trace of every event ever recorded,
and `dcm`, the version numbers of the documents acknowledged by the `dcm`
collection (each successful iteration `i` writes its batch of documents
carrying `version = i`). -/
structure LState where
  buf : List MEvent
  fidx : Nat
  log : List MEvent
  dcm : List Nat
deriving DecidableEq, Repr

/-- Events recorded by one load iteration: one `dcm_process` event per file
walked (`process_dcm_file`, line 254), then on a successful bulk write an
`insert_time` event counting the acknowledged ids, and in every case a
closing `series_time` event whose count `w` is the files walked plus, on
success, the acknowledged ids. -/
def iterEvents (nf : Nat) (ins : Bool) : List MEvent :=
  List.replicate nf (MEvent.mk "dcm_process" 1) ++
    (if ins then [MEvent.mk "insert_time" nf] else []) ++
    [MEvent.mk "series_time" (if ins then nf + nf else nf)]

/-- One iteration of the `for i in range(1, LOAD_RUNS+1)` loop of
`insert_data` (lines 274-307).  `nf` is the number of files the directory
walk visits, `ins` the outcome of `db['dcm'].insert_many(to_insert)`.  On a
successful insert, `w` grows by `len(result.inserted_ids) = nf`, an
`insert_time` event is recorded and a thresholded flush is attempted whose
failure is swallowed by the iteration's `except` clause.  On a failed insert
the batch is simply dropped (`to_insert.clear()` runs either way) and no
retry ever happens.  The iteration always ends by recording `series_time`
with the final `w`. -/
def loadIter (nf : Nat) (ins : Bool) (wOk : Nat → Bool) (version : Nat)
    (st : LState) : LState :=
  let walkEvents := List.replicate nf (MEvent.mk "dcm_process" 1)
  let st1 := LState.mk (st.buf ++ walkEvents) st.fidx (st.log ++ walkEvents) st.dcm
  if ins then
    let e1 := MEvent.mk "insert_time" nf
    let st2 := LState.mk (st1.buf ++ [e1]) st1.fidx (st1.log ++ [e1])
      (st1.dcm ++ List.replicate nf version)
    let st3 :=
      match flushPair wOk 1000 st2.buf st2.fidx with
      | Except.ok (b, f) => LState.mk b f st2.log st2.dcm
      | Except.error (b, f) => LState.mk b f st2.log st2.dcm
    let e2 := MEvent.mk "series_time" (nf + nf)
    LState.mk (st3.buf ++ [e2]) st3.fidx (st3.log ++ [e2]) st3.dcm
  else
    let e2 := MEvent.mk "series_time" nf
    LState.mk (st1.buf ++ [e2]) st1.fidx (st1.log ++ [e2]) st1.dcm

/-- `insert_data(db, datadir)` (lines 263-307): run the remaining `k`
iterations, the loop counter currently at `i`.  Every store failure inside
an iteration is caught there, so the function is total: the harness always
reaches the end of the loop. -/
def insertData (nf : Nat) (insOk wOk : Nat → Bool) :
    Nat → Nat → LState → LState
  | 0, _, st => st
  | k + 1, i, st => insertData nf insOk wOk k (i + 1) (loadIter nf (insOk i) wOk i st)

/-- A full `insert_data` run of `runs` iterations starting from an empty
`measures` buffer and an empty `dcm` collection. -/
def runLoad (nf : Nat) (insOk wOk : Nat → Bool) (runs : Nat) : LState :=
  insertData nf insOk wOk runs 1 (LState.mk [] 0 [] [])

/-- The full event trace of iterations `i, i+1, ...` (`k` of them). -/
def iterLogs (nf : Nat) (insOk : Nat → Bool) : Nat → Nat → List MEvent
  | 0, _ => []
  | k + 1, i => iterEvents nf (insOk i) ++ iterLogs nf insOk k (i + 1)

/-- The acknowledged document versions of iterations `i, i+1, ...`. -/
def dcmRecs (nf : Nat) (insOk : Nat → Bool) : Nat → Nat → List Nat
  | 0, _ => []
  | k + 1, i =>
    (if insOk i then List.replicate nf i else []) ++ dcmRecs nf insOk k (i + 1)

/-- The `series_time` events of iterations `i, i+1, ...`. -/
def seriesList (nf : Nat) (insOk : Nat → Bool) : Nat → Nat → List MEvent
  | 0, _ => []
  | k + 1, i =>
    MEvent.mk "series_time" (if insOk i then nf + nf else nf) ::
      seriesList nf insOk k (i + 1)

theorem loadIter_log (nf : Nat) (ins : Bool) (wOk : Nat → Bool) (version : Nat)
    (st : LState) :
    (loadIter nf ins wOk version st).log = st.log ++ iterEvents nf ins ∧
    (loadIter nf ins wOk version st).dcm =
      st.dcm ++ (if ins then List.replicate nf version else []) := by
  cases ins with
  | false => simp [loadIter, iterEvents]
  | true =>
    unfold loadIter
    dsimp only
    generalize flushPair wOk 1000 _ _ = r
    cases r with
    | ok p =>
      obtain ⟨b, f⟩ := p
      simp [iterEvents, List.append_assoc]
    | error p =>
      obtain ⟨b, f⟩ := p
      simp [iterEvents, List.append_assoc]

theorem insertData_log (nf : Nat) (insOk wOk : Nat → Bool) :
    ∀ (k i : Nat) (st : LState),
      (insertData nf insOk wOk k i st).log = st.log ++ iterLogs nf insOk k i ∧
      (insertData nf insOk wOk k i st).dcm = st.dcm ++ dcmRecs nf insOk k i := by
  intro k
  induction k with
  | zero => intro i st; simp [insertData, iterLogs, dcmRecs]
  | succ n ih =>
    intro i st
    have h1 := loadIter_log nf (insOk i) wOk i st
    have h2 := ih (i + 1) (loadIter nf (insOk i) wOk i st)
    unfold insertData
    rw [h2.1, h2.2, h1.1, h1.2] at *
    constructor
    · rw [h2.1, h1.1, iterLogs, List.append_assoc]
    · rw [h2.2, h1.2, dcmRecs, List.append_assoc]

theorem replicate_filter_series (nf : Nat) :
    (List.replicate nf (MEvent.mk "dcm_process" 1)).filter
      (fun e => e.measure == "series_time") = [] := by
  induction nf with
  | zero => rfl
  | succ n ih => simp [List.replicate_succ, List.filter_cons, ih]

theorem iterEvents_filter_series (nf : Nat) (ins : Bool) :
    (iterEvents nf ins).filter (fun e => e.measure == "series_time") =
      [MEvent.mk "series_time" (if ins then nf + nf else nf)] := by
  cases ins with
  | false =>
    simp [iterEvents, List.filter_append, replicate_filter_series,
      List.filter_cons]
  | true =>
    simp [iterEvents, List.filter_append, replicate_filter_series,
      List.filter_cons]

theorem iterLogs_filter_series (nf : Nat) (insOk : Nat → Bool) :
    ∀ (k i : Nat),
      (iterLogs nf insOk k i).filter (fun e => e.measure == "series_time") =
        seriesList nf insOk k i := by
  intro k
  induction k with
  | zero => intro i; rfl
  | succ n ih =>
    intro i
    simp only [iterLogs, seriesList, List.filter_append,
      iterEvents_filter_series, ih]
    rfl

theorem seriesList_length (nf : Nat) (insOk : Nat → Bool) :
    ∀ (k i : Nat), (seriesList nf insOk k i).length = k := by
  intro k
  induction k with
  | zero => intro i; rfl
  | succ n ih => intro i; simp [seriesList, ih]

theorem seriesList_getElem (nf : Nat) (insOk : Nat → Bool) :
    ∀ (k j i : Nat), j < k →
      (seriesList nf insOk k i)[j]? =
        some (MEvent.mk "series_time" (if insOk (i + j) then nf + nf else nf)) := by
  intro k
  induction k with
  | zero => intro j i hj; omega
  | succ n ih =>
    intro j i hj
    cases j with
    | zero => simp [seriesList]
    | succ m =>
      rw [seriesList]
      rw [List.getElem?_cons_succ]
      rw [ih m (i + 1) (by omega)]
      have : i + 1 + m = i + (m + 1) := by omega
      rw [this]

theorem dcmRecs_mem_insOk (nf : Nat) (insOk : Nat → Bool) :
    ∀ (k i v : Nat), v ∈ dcmRecs nf insOk k i → insOk v = true := by
  intro k
  induction k with
  | zero => intro i v hv; simp [dcmRecs] at hv
  | succ n ih =>
    intro i v hv
    rw [dcmRecs] at hv
    rcases List.mem_append.mp hv with hleft | hright
    · by_cases hins : insOk i
      · rw [if_pos hins] at hleft
        rw [List.eq_of_mem_replicate hleft]
        exact hins
      · rw [if_neg hins] at hleft
        simp at hleft
    · exact ih (i + 1) v hright

/-- C9 -- a load iteration whose bulk write fails never gets its documents
into the store (the batch is dropped, not retried: no document with that
iteration's version is ever acknowledged), and the harness still completes
every one of its iterations, recording one `series_time` event per
iteration. -/
theorem bulk_write_failure_best_effort (nf runs i : Nat)
    (insOk wOk : Nat → Bool) (hfail : insOk i = false) :
    (¬ i ∈ (runLoad nf insOk wOk runs).dcm) ∧
    ((runLoad nf insOk wOk runs).log.filter
        (fun e => e.measure == "series_time")).length = runs := by
  have h := insertData_log nf insOk wOk runs 1 (LState.mk [] 0 [] [])
  constructor
  · rw [runLoad, h.2]
    simp only [List.nil_append]
    intro hmem
    rw [dcmRecs_mem_insOk nf insOk runs 1 i hmem] at hfail
    simp at hfail
  · rw [runLoad, h.1]
    simp only [List.nil_append]
    rw [iterLogs_filter_series, seriesList_length]

theorem bulk_write_failure_best_effort_witness :
    ((fun j => !(j == 2)) 2 = false) ∧
    ((¬ 2 ∈ (runLoad 3 (fun j => !(j == 2)) (fun _ => true) 4).dcm) ∧
      ((runLoad 3 (fun j => !(j == 2)) (fun _ => true) 4).log.filter
          (fun e => e.measure == "series_time")).length = 4) :=
  ⟨by decide,
    bulk_write_failure_best_effort 3 4 2 (fun j => !(j == 2)) (fun _ => true)
      (by decide)⟩

/-- C10 -- the `series_time` event of every load iteration counts the files
walked in the source directory plus the acknowledged inserted ids: twice the
file count when the iteration's bulk write succeeded, the file count alone
when it failed. -/
theorem series_time_counts (nf runs j : Nat) (insOk wOk : Nat → Bool)
    (hj : j < runs) :
    ((runLoad nf insOk wOk runs).log.filter
        (fun e => e.measure == "series_time"))[j]? =
      some (MEvent.mk "series_time"
        (nf + (if insOk (1 + j) then nf else 0))) := by
  have h := insertData_log nf insOk wOk runs 1 (LState.mk [] 0 [] [])
  rw [runLoad, h.1]
  simp only [List.nil_append]
  rw [iterLogs_filter_series, seriesList_getElem nf insOk runs j 1 hj]
  by_cases hins : insOk (1 + j)
  · simp [hins]
  · simp [hins]

theorem series_time_counts_witness :
    (1 < 3) ∧
    ((runLoad 2 (fun j => !(j == 2)) (fun _ => true) 3).log.filter
        (fun e => e.measure == "series_time"))[1]? =
      some (MEvent.mk "series_time"
        (2 + (if (fun j => !(j == 2)) (1 + 1) then 2 else 0))) :=
  ⟨by decide,
    series_time_counts 2 3 1 (fun j => !(j == 2)) (fun _ => true) (by decide)⟩

theorem loadIter_buf_eq_log (nf : Nat) (ins : Bool) (version : Nat)
    (st : LState) (heq : st.buf = st.log) :
    (loadIter nf ins (fun _ => false) version st).buf =
      (loadIter nf ins (fun _ => false) version st).log := by
  cases ins with
  | false => simp [loadIter, heq]
  | true =>
    unfold loadIter
    dsimp only
    by_cases hlen : (st.buf ++ List.replicate nf (MEvent.mk "dcm_process" 1) ++
        [MEvent.mk "insert_time" nf]).length > 1000
    · rw [flushPair_fail (fun _ => false) 1000 _ st.fidx hlen rfl]
      simp [heq]
    · rw [flushPair_noop (fun _ => false) 1000 _ st.fidx (by omega)]
      simp [heq]

theorem insertData_buf_eq_log (nf : Nat) (insOk : Nat → Bool) :
    ∀ (k i : Nat) (st : LState), st.buf = st.log →
      (insertData nf insOk (fun _ => false) k i st).buf =
        (insertData nf insOk (fun _ => false) k i st).log := by
  intro k
  induction k with
  | zero => intro i st heq; exact heq
  | succ n ih =>
    intro i st heq
    unfold insertData
    exact ih (i + 1) _ (loadIter_buf_eq_log nf (insOk i) i st heq)

/-- C4 (amended) -- a metrics-flush write failure is surfaced differently by
the two harnesses: the load harness catches it in its per-iteration handler
and completes all iterations with every recorded event still buffered for a
later retry, while in the read harness the re-raised failure propagates to
the caller and aborts the run. -/
theorem flush_failure_surfacing (nf runs : Nat) (insOk : Nat → Bool)
    (buf0 : List MEvent) (hbig : 1000 < buf0.length) :
    ((runLoad nf insOk (fun _ => false) runs).log.filter
        (fun e => e.measure == "series_time")).length = runs ∧
    (runLoad nf insOk (fun _ => false) runs).buf =
      (runLoad nf insOk (fun _ => false) runs).log ∧
    readData [1] (fun _ => 0) (fun _ => 0) (fun _ => false) 1 buf0 =
      Except.error RunError.flushError := by
  refine ⟨?_, ?_, ?_⟩
  · have h := insertData_log nf insOk (fun _ => false) runs 1 (LState.mk [] 0 [] [])
    rw [runLoad, h.1]
    simp only [List.nil_append]
    rw [iterLogs_filter_series, seriesList_length]
  · exact insertData_buf_eq_log nf insOk runs 1 (LState.mk [] 0 [] []) rfl
  · unfold readData readLoop
    rw [randomChoice_ok 0 [1] (by decide)]
    dsimp only
    rw [flushPair_fail (fun _ => false) 1000 _ 0 (by simp; omega) rfl]

theorem flush_failure_surfacing_witness :
    (1000 < (List.replicate 1001 (MEvent.mk "dcm_process" 1)).length) ∧
    (((runLoad 1 (fun _ => true) (fun _ => false) 2).log.filter
        (fun e => e.measure == "series_time")).length = 2 ∧
      (runLoad 1 (fun _ => true) (fun _ => false) 2).buf =
        (runLoad 1 (fun _ => true) (fun _ => false) 2).log ∧
      readData [1] (fun _ => 0) (fun _ => 0) (fun _ => false) 1
          (List.replicate 1001 (MEvent.mk "dcm_process" 1)) =
        Except.error RunError.flushError) :=
  ⟨by simp only [List.length_replicate]; omega,
    flush_failure_surfacing 1 2 (fun _ => true)
      (List.replicate 1001 (MEvent.mk "dcm_process" 1))
      (by simp only [List.length_replicate]; omega)⟩

/-- C4 -- counterexample to the claim as stated: with a buffer already past
the watermark, the read harness's very first flush attempt fails and the
failure escapes `read_data` (there is no handler around
`attempt_measures_insert` there), aborting the remaining repetitions instead
of continuing past the failed flush. -/
theorem flush_failure_aborts_read_cex :
    readData [1] (fun _ => 0) (fun _ => 0) (fun _ => false) 1
        (List.replicate 1000 (MEvent.mk "dcm_process" 1)) =
      Except.error RunError.flushError := by
  unfold readData readLoop
  rw [randomChoice_ok 0 [1] (by decide)]
  dsimp only
  rw [flushPair_fail (fun _ => false) 1000 _ 0
    (by simp only [List.length_append, List.length_replicate, List.length_cons,
      List.length_nil]; omega) rfl]

end DicomDemo
